import Mathlib

/-!
# Verification of `pulp_rpm/extensions/admin/structure.py`

Shallow embedding of the CLI section-structure module. A CLI section is a
named node of a tree; the module builds a fixed hierarchy of sections under
a root section named `rpm` and provides path-based accessors.

The collaborator (`pulp.client.extensions.core.PulpCli` /
`PulpCliSection`) is external to the repository; its contract is modelled
from the specification's interface section: `find_subsection(name)` returns
the child with that name or the absence marker (`None`, embedded as
`Option.none`), and `create_subsection(name, description)` appends a new
empty child with that name and description and returns it.

Python object references into the mutable tree are embedded as
name-paths from the root: an in-place mutation through a reference held to
the node found/created at a path is embedded as a functional update of the
first child matching each path segment (the same first-match rule that the
lookup uses). Python's `AttributeError`, raised when a method is invoked on
the absence marker `None`, is embedded as the `Except` error case.
-/

/-- A CLI section: name, description, ordered list of child sections. -/
inductive Sec where
  | mk : String → String → List Sec → Sec

def Sec.name : Sec → String
  | .mk n _ _ => n

def Sec.description : Sec → String
  | .mk _ d _ => d

def Sec.children : Sec → List Sec
  | .mk _ _ cs => cs

/-- The Python exceptions the embedded code can raise: calling a method on
`None` raises `AttributeError`. -/
inductive PyError where
  | attributeError

/-- The CLI object: holds the root section of the command tree
(collaborator model; `root_section` is the tree root). -/
structure Cli where
  root_section : Sec

/-- First child of the list whose name equals `n` (collaborator model of
name lookup among a node's subsections). -/
def findIn : List Sec → String → Option Sec
  | [], _ => none
  | c :: cs, n => if c.name = n then some c else findIn cs n

/-- Collaborator model: `section.find_subsection(name)` returns the child
with that name, or the absence marker. -/
def Sec.find_subsection (s : Sec) (n : String) : Option Sec :=
  findIn s.children n

/-- Collaborator model: `section.create_subsection(name, description)`
appends a new empty child and returns it; the pair is
(created child, updated parent). -/
def Sec.create_subsection (s : Sec) (n d : String) : Sec × Sec :=
  (Sec.mk n d [], Sec.mk s.name s.description (s.children ++ [Sec.mk n d []]))

/-- The updated parent after `create_subsection` (in-place mutation view). -/
def Sec.addChild (s : Sec) (n d : String) : Sec :=
  (s.create_subsection n d).2

/-- Replace the first element of the list named `p` by its image under `f`
(embedding of an in-place mutation through a reference obtained by
first-match lookup). -/
def mapFirst : List Sec → String → (Sec → Sec) → List Sec
  | [], _, _ => []
  | c :: cs, p, f => if c.name = p then f c :: cs else c :: mapFirst cs p f

/-- Apply `f` in place to the first child of `s` named `p`. -/
def Sec.modifyChild (s : Sec) (p : String) (f : Sec → Sec) : Sec :=
  Sec.mk s.name s.description (mapFirst s.children p f)

/-- Collaborator model: `cli.find_section(name)` looks a top-level section
up by name under the root. -/
def Cli.find_section (cli : Cli) (n : String) : Option Sec :=
  cli.root_section.find_subsection n

/-- Collaborator model: `cli.create_section(name, description)` creates a
top-level section under the root and returns it with the new CLI state. -/
def Cli.create_section (cli : Cli) (n d : String) : Sec × Cli :=
  ((cli.root_section.create_subsection n d).1,
   ⟨(cli.root_section.create_subsection n d).2⟩)

/-! ## Constants of the module (`SECTION_*`, `DESC_*`); the gettext
translation function `_` is the identity at definition time. -/

def SECTION_ROOT : String := "rpm"
def SECTION_REPO : String := "repo"
def SECTION_COPY : String := "copy"
def SECTION_UPLOADS : String := "uploads"
def SECTION_REMOVE : String := "remove"
def SECTION_CONTENTS : String := "content"
def SECTION_SYNC : String := "sync"
def SECTION_SYNC_SCHEDULES : String := "schedules"
def SECTION_PUBLISH : String := "publish"
def SECTION_EXPORT : String := "export"
def SECTION_GROUP : String := "group"

def DESC_ROOT : String := "manage RPM-related content and features"
def DESC_REPO : String := "repository lifecycle commands"
def DESC_COPY : String := "copies one or more content units between repositories"
def DESC_UPLOADS : String := "upload modules into a repository"
def DESC_REMOVE : String := "remove copied or uploaded modules from a repository"
def DESC_CONTENTS : String := "search the contents of a repository"
def DESC_SYNC : String := "run, schedule, or view the status of sync tasks"
def DESC_SYNC_SCHEDULES : String := "manage repository sync schedules"
def DESC_PUBLISH : String := "run or view the status of publish tasks"
def DESC_EXPORT : String := "run or view the status of a repository export"
def DESC_GROUP_EXPORT : String := "run or view the status of a repository group export"
def DESC_GROUP : String := "repository group commands"

/-! ## The module's functions -/

/-- `ensure_root(cli)`: looks the `rpm` top-level section up, creates it
with `DESC_ROOT` if absent, returns it together with the resulting CLI
state (the Python function mutates `cli` in place). -/
def ensure_root (cli : Cli) : Sec × Cli :=
  match cli.find_section SECTION_ROOT with
  | some root_section => (root_section, cli)
  | none => cli.create_section SECTION_ROOT DESC_ROOT

/-- The loop body of `_find_section`: `section = section.find_subsection(p)`
iterated over the path, threading the CLI state (which it never changes);
when `section` is the absence marker and a segment remains, the attribute
access on `None` raises `AttributeError`. -/
def findSectionLoop : Option Sec → List String → Cli → Except PyError (Option Sec) × Cli
  | cur, [], cli => (Except.ok cur, cli)
  | some s, p :: rest, cli => findSectionLoop (s.find_subsection p) rest cli
  | none, _ :: _, cli => (Except.error PyError.attributeError, cli)

/-- `_find_section(cli, *path)`: starts at `cli.root_section` and follows
the path through `find_subsection`. -/
def find_section_path (cli : Cli) (path : List String) : Except PyError (Option Sec) × Cli :=
  findSectionLoop (some cli.root_section) path cli

/-! The `repo_*_section` accessors, each a fixed-path `_find_section`. -/

def repo_section (cli : Cli) : Except PyError (Option Sec) × Cli :=
  find_section_path cli [SECTION_ROOT, SECTION_REPO]

def repo_copy_section (cli : Cli) : Except PyError (Option Sec) × Cli :=
  find_section_path cli [SECTION_ROOT, SECTION_REPO, SECTION_COPY]

def repo_remove_section (cli : Cli) : Except PyError (Option Sec) × Cli :=
  find_section_path cli [SECTION_ROOT, SECTION_REPO, SECTION_REMOVE]

def repo_uploads_section (cli : Cli) : Except PyError (Option Sec) × Cli :=
  find_section_path cli [SECTION_ROOT, SECTION_REPO, SECTION_UPLOADS]

def repo_contents_section (cli : Cli) : Except PyError (Option Sec) × Cli :=
  find_section_path cli [SECTION_ROOT, SECTION_REPO, SECTION_CONTENTS]

def repo_sync_section (cli : Cli) : Except PyError (Option Sec) × Cli :=
  find_section_path cli [SECTION_ROOT, SECTION_REPO, SECTION_SYNC]

def repo_sync_schedules_section (cli : Cli) : Except PyError (Option Sec) × Cli :=
  find_section_path cli [SECTION_ROOT, SECTION_REPO, SECTION_SYNC, SECTION_SYNC_SCHEDULES]

def repo_publish_section (cli : Cli) : Except PyError (Option Sec) × Cli :=
  find_section_path cli [SECTION_ROOT, SECTION_REPO, SECTION_PUBLISH]

def repo_export_section (cli : Cli) : Except PyError (Option Sec) × Cli :=
  find_section_path cli [SECTION_ROOT, SECTION_REPO, SECTION_EXPORT]

def repo_group_section (cli : Cli) : Except PyError (Option Sec) × Cli :=
  find_section_path cli [SECTION_ROOT, SECTION_REPO, SECTION_GROUP]

def repo_group_export_section (cli : Cli) : Except PyError (Option Sec) × Cli :=
  find_section_path cli [SECTION_ROOT, SECTION_REPO, SECTION_GROUP, SECTION_EXPORT]

/-! ## `ensure_repo_structure` -/

/-- The tuple of direct subsections of `repo` created by
`ensure_repo_structure`, in source order. -/
def direct_subsections : List (String × String) :=
  [(SECTION_COPY, DESC_COPY),
   (SECTION_REMOVE, DESC_REMOVE),
   (SECTION_CONTENTS, DESC_CONTENTS),
   (SECTION_UPLOADS, DESC_UPLOADS),
   (SECTION_SYNC, DESC_SYNC),
   (SECTION_PUBLISH, DESC_PUBLISH),
   (SECTION_EXPORT, DESC_EXPORT),
   (SECTION_GROUP, DESC_GROUP)]

/-- `root_section.create_subsection(n, d)` where `root_section` is the
reference obtained by looking `rpm` up at top level: update through the
path `[rpm]`. -/
def createUnderRoot (cli : Cli) (n d : String) : Cli :=
  ⟨cli.root_section.modifyChild SECTION_ROOT (fun r => r.addChild n d)⟩

/-- `repo_section.create_subsection(n, d)` where `repo_section` is the
reference to the node at path `[rpm, repo]`. -/
def createUnderRepo (cli : Cli) (n d : String) : Cli :=
  ⟨cli.root_section.modifyChild SECTION_ROOT
    (fun r => r.modifyChild SECTION_REPO (fun rp => rp.addChild n d))⟩

/-- `x_section.create_subsection(n, d)` where `x_section` is the reference
to the node at path `[rpm, repo, c]` (used for `sync` and `group`). -/
def createUnderRepoChild (cli : Cli) (c n d : String) : Cli :=
  ⟨cli.root_section.modifyChild SECTION_ROOT
    (fun r => r.modifyChild SECTION_REPO
      (fun rp => rp.modifyChild c (fun x => x.addChild n d)))⟩

/-- CLI state reached in the creation branch of `ensure_repo_structure`
after `repo` and its eight direct subsections have been created, starting
from the state `cli1` left by `ensure_root`. -/
def cliAfterRepoChildren (cli1 : Cli) : Cli :=
  direct_subsections.foldl (fun c nd => createUnderRepo c nd.1 nd.2)
    (createUnderRoot cli1 SECTION_REPO DESC_REPO)

/-- CLI state after `sync_section.create_subsection(SECTION_SYNC_SCHEDULES,
DESC_SYNC_SCHEDULES)` in the creation branch. -/
def cliAfterSchedules (cli1 : Cli) : Cli :=
  createUnderRepoChild (cliAfterRepoChildren cli1)
    SECTION_SYNC SECTION_SYNC_SCHEDULES DESC_SYNC_SCHEDULES

/-- CLI state after `group_section.create_subsection(SECTION_EXPORT,
DESC_GROUP_EXPORT)`, the last creation of the branch. -/
def cliAfterGroupExport (cli1 : Cli) : Cli :=
  createUnderRepoChild (cliAfterSchedules cli1)
    SECTION_GROUP SECTION_EXPORT DESC_GROUP_EXPORT

/-- `ensure_repo_structure(cli)`: ensures the root, returns the existing
`repo` section if present, otherwise creates `repo`, its eight direct
subsections, then `schedules` under the section returned by
`repo_sync_section(cli)` and `export` under the one returned by
`repo_group_section(cli)`, and returns the `repo` section. The returned
section object is the node at `[rpm, repo]` of the final state; were an
intermediate accessor to return the absence marker, the method call on it
would raise `AttributeError`. -/
def ensure_repo_structure (cli : Cli) : Except PyError (Sec × Cli) :=
  let rc := ensure_root cli
  match (rc.1).find_subsection SECTION_REPO with
  | some repo => Except.ok (repo, rc.2)
  | none =>
    let cli2 := cliAfterRepoChildren rc.2
    match (repo_sync_section cli2).1 with
    | Except.error e => Except.error e
    | Except.ok none => Except.error PyError.attributeError
    | Except.ok (some _) =>
      let cli3 := cliAfterSchedules rc.2
      match (repo_group_section cli3).1 with
      | Except.error e => Except.error e
      | Except.ok none => Except.error PyError.attributeError
      | Except.ok (some _) =>
        let cli4 := cliAfterGroupExport rc.2
        match (repo_section cli4).1 with
        | Except.ok (some repo) => Except.ok (repo, cli4)
        | _ => Except.error PyError.attributeError

/-- A fresh CLI: empty root section, no top-level sections. -/
def freshCli : Cli := ⟨Sec.mk "" "" []⟩

/-- The fully built `repo` section: eight direct subsections in creation
order, `schedules` under `sync` and `export` under `group`. -/
def repoFullSection : Sec :=
  Sec.mk SECTION_REPO DESC_REPO
    [Sec.mk SECTION_COPY DESC_COPY [],
     Sec.mk SECTION_REMOVE DESC_REMOVE [],
     Sec.mk SECTION_CONTENTS DESC_CONTENTS [],
     Sec.mk SECTION_UPLOADS DESC_UPLOADS [],
     Sec.mk SECTION_SYNC DESC_SYNC [Sec.mk SECTION_SYNC_SCHEDULES DESC_SYNC_SCHEDULES []],
     Sec.mk SECTION_PUBLISH DESC_PUBLISH [],
     Sec.mk SECTION_EXPORT DESC_EXPORT [],
     Sec.mk SECTION_GROUP DESC_GROUP [Sec.mk SECTION_EXPORT DESC_GROUP_EXPORT []]]

/-- Resolution of a name-path in the tree by repeated first-match lookup:
the node a chain of successful `find_subsection` calls reaches. -/
def resolvePath : Sec → List String → Option Sec
  | s, [] => some s
  | s, p :: rest =>
    match findIn s.children p with
    | none => none
    | some c => resolvePath c rest

/-! ## Basic lemmas on `findIn` and `mapFirst` -/

theorem findIn_name {cs : List Sec} {n : String} {c : Sec}
    (h : findIn cs n = some c) : c.name = n := by
  induction cs with
  | nil => simp [findIn] at h
  | cons x xs ih =>
    by_cases hx : x.name = n
    · simp [findIn, hx] at h
      subst h
      exact hx
    · simp [findIn, hx] at h
      exact ih h

theorem findIn_append_some {cs ds : List Sec} {n : String} {c : Sec}
    (h : findIn cs n = some c) : findIn (cs ++ ds) n = some c := by
  induction cs with
  | nil => simp [findIn] at h
  | cons x xs ih =>
    by_cases hx : x.name = n
    · simp [findIn, hx] at h ⊢
      exact h
    · simp [findIn, hx] at h ⊢
      exact ih h

theorem findIn_append_none {cs : List Sec} {n : String}
    (h : findIn cs n = none) (ds : List Sec) :
    findIn (cs ++ ds) n = findIn ds n := by
  induction cs with
  | nil => simp
  | cons x xs ih =>
    by_cases hx : x.name = n
    · simp [findIn, hx] at h
    · simp [findIn, hx] at h ⊢
      exact ih h

theorem findIn_mapFirst_self {cs : List Sec} {p : String} {c : Sec}
    {f : Sec → Sec} (hf : ∀ x, (f x).name = x.name)
    (h : findIn cs p = some c) :
    findIn (mapFirst cs p f) p = some (f c) := by
  induction cs with
  | nil => simp [findIn] at h
  | cons x xs ih =>
    by_cases hx : x.name = p
    · simp [findIn, hx] at h
      subst h
      simp [mapFirst, findIn, hx, hf]
    · simp [findIn, mapFirst, hx] at h ⊢
      exact ih h

theorem findIn_mapFirst_other {cs : List Sec} {p q : String}
    {f : Sec → Sec} (hf : ∀ x, (f x).name = x.name) (hq : q ≠ p) :
    findIn (mapFirst cs p f) q = findIn cs q := by
  induction cs with
  | nil => simp [mapFirst]
  | cons x xs ih =>
    by_cases hx : x.name = p
    · have hxq : ¬ x.name = q := by
        rw [hx]
        exact fun h => hq h.symm
      simp [mapFirst, findIn, hx, hxq, hf, Ne.symm hq]
    · simp [mapFirst, findIn, hx]
      by_cases hxq : x.name = q
      · simp [hxq]
      · simp [hxq]
        exact ih

theorem mapFirst_names {cs : List Sec} {p : String} {f : Sec → Sec}
    (hf : ∀ x, (f x).name = x.name) :
    (mapFirst cs p f).map Sec.name = cs.map Sec.name := by
  induction cs with
  | nil => simp [mapFirst]
  | cons x xs ih =>
    by_cases hx : x.name = p
    · simp [mapFirst, hx, hf]
    · simp [mapFirst, hx, ih]

/-! ## Name and description preservation of the update operations -/

theorem addChild_name (s : Sec) (n d : String) : (s.addChild n d).name = s.name := rfl

theorem addChild_description (s : Sec) (n d : String) :
    (s.addChild n d).description = s.description := rfl

theorem addChild_children (s : Sec) (n d : String) :
    (s.addChild n d).children = s.children ++ [Sec.mk n d []] := rfl

theorem modifyChild_name (s : Sec) (p : String) (f : Sec → Sec) :
    (s.modifyChild p f).name = s.name := rfl

theorem modifyChild_description (s : Sec) (p : String) (f : Sec → Sec) :
    (s.modifyChild p f).description = s.description := rfl

theorem modifyChild_children (s : Sec) (p : String) (f : Sec → Sec) :
    (s.modifyChild p f).children = mapFirst s.children p f := rfl

theorem mapFirst_none {cs : List Sec} {p : String} {f : Sec → Sec}
    (h : findIn cs p = none) : mapFirst cs p f = cs := by
  induction cs with
  | nil => rfl
  | cons x xs ih =>
    by_cases hx : x.name = p
    · simp [findIn, hx] at h
    · simp [findIn, hx] at h
      simp [mapFirst, hx, ih h]

theorem findIn_eq_none_iff {cs : List Sec} {n : String} :
    findIn cs n = none ↔ n ∉ cs.map Sec.name := by
  induction cs with
  | nil => simp [findIn]
  | cons x xs ih =>
    by_cases hx : x.name = n
    · simp [findIn, hx]
    · have hstep : findIn (x :: xs) n = findIn xs n := by simp [findIn, hx]
      rw [hstep, ih, List.map_cons]
      simp only [List.mem_cons]
      constructor
      · intro h hcon
        cases hcon with
        | inl h1 => exact hx h1.symm
        | inr h2 => exact h h2
      · intro h h2
        exact h (Or.inr h2)

theorem nodup_append_singleton {xs : List String} {a : String}
    (h : xs.Nodup) (ha : a ∉ xs) : (xs ++ [a]).Nodup := by
  simp [List.nodup_append, h, ha]

/-! ## The traversal loop never changes the CLI state -/

theorem findSectionLoop_state (cur : Option Sec) (path : List String) (cli : Cli) :
    (findSectionLoop cur path cli).2 = cli := by
  induction path generalizing cur with
  | nil => cases cur <;> rfl
  | cons p rest ih =>
    cases cur with
    | none => rfl
    | some s => exact ih (s.find_subsection p)

theorem find_section_path_state (cli : Cli) (path : List String) :
    (find_section_path cli path).2 = cli :=
  findSectionLoop_state (some cli.root_section) path cli

/-! ## `ensure_root` -/

theorem ensure_root_found {cli : Cli} {s : Sec}
    (h : cli.find_section SECTION_ROOT = some s) : ensure_root cli = (s, cli) := by
  unfold ensure_root
  rw [h]

theorem ensure_root_created {cli : Cli}
    (h : cli.find_section SECTION_ROOT = none) :
    ensure_root cli = (Sec.mk SECTION_ROOT DESC_ROOT [],
      ⟨cli.root_section.addChild SECTION_ROOT DESC_ROOT⟩) := by
  unfold ensure_root
  rw [h]
  rfl

theorem ensure_root_finds (cli : Cli) :
    findIn ((ensure_root cli).2).root_section.children SECTION_ROOT
      = some (ensure_root cli).1 := by
  cases h : cli.find_section SECTION_ROOT with
  | some s =>
    rw [ensure_root_found h]
    exact h
  | none =>
    rw [ensure_root_created h]
    have h' : findIn cli.root_section.children SECTION_ROOT = none := h
    show findIn (cli.root_section.children ++ [Sec.mk SECTION_ROOT DESC_ROOT []])
        SECTION_ROOT = _
    rw [findIn_append_none h']
    simp [findIn, Sec.name]

theorem ensure_root_name (cli : Cli) : ((ensure_root cli).1).name = SECTION_ROOT := by
  cases h : cli.find_section SECTION_ROOT with
  | some s =>
    rw [ensure_root_found h]
    exact findIn_name h
  | none =>
    rw [ensure_root_created h]
    rfl

theorem ensure_root_idem (cli : Cli) :
    ensure_root ((ensure_root cli).2) = ensure_root cli := by
  have h := ensure_root_finds cli
  have h' : ((ensure_root cli).2).find_section SECTION_ROOT = some (ensure_root cli).1 := h
  rw [ensure_root_found h']

/-! ## Presence preservation (`preservedBy`) -/

/-- Every section addressable by a path in `a` is still addressable by the
same path in `b`, with the same name and description. -/
def preservedBy (a b : Sec) : Prop :=
  ∀ p s, resolvePath a p = some s →
    ∃ t, resolvePath b p = some t ∧ t.name = s.name ∧ t.description = s.description

theorem preservedBy_refl (a : Sec) : preservedBy a a :=
  fun _ s h => ⟨s, h, rfl, rfl⟩

theorem preservedBy_trans {a b c : Sec}
    (h1 : preservedBy a b) (h2 : preservedBy b c) : preservedBy a c := by
  intro p s h
  obtain ⟨t, ht, hn, hd⟩ := h1 p s h
  obtain ⟨u, hu, hn2, hd2⟩ := h2 p t ht
  exact ⟨u, hu, hn2.trans hn, hd2.trans hd⟩

theorem preservedBy_addChild (a : Sec) (n d : String) :
    preservedBy a (a.addChild n d) := by
  intro p s h
  cases p with
  | nil =>
    simp [resolvePath] at h
    subst h
    exact ⟨a.addChild n d, rfl, rfl, rfl⟩
  | cons q rest =>
    simp only [resolvePath] at h
    cases hc : findIn a.children q with
    | none => rw [hc] at h; simp at h
    | some c =>
      rw [hc] at h
      simp only at h
      refine ⟨s, ?_, rfl, rfl⟩
      simp only [resolvePath, addChild_children, findIn_append_some hc]
      exact h

theorem preservedBy_modifyChild (a : Sec) (p : String) (f : Sec → Sec)
    (hf : ∀ x, (f x).name = x.name)
    (hp : ∀ c, findIn a.children p = some c → preservedBy c (f c)) :
    preservedBy a (a.modifyChild p f) := by
  intro q s h
  cases q with
  | nil =>
    simp [resolvePath] at h
    subst h
    exact ⟨a.modifyChild p f, rfl, rfl, rfl⟩
  | cons q rest =>
    simp only [resolvePath] at h
    cases hc : findIn a.children q with
    | none => rw [hc] at h; simp at h
    | some c =>
      rw [hc] at h
      simp only at h
      by_cases hqp : q = p
      · subst hqp
        obtain ⟨t, ht, hn, hd⟩ := hp c hc rest s h
        refine ⟨t, ?_, hn, hd⟩
        simp only [resolvePath, modifyChild_children, findIn_mapFirst_self hf hc]
        exact ht
      · refine ⟨s, ?_, rfl, rfl⟩
        simp only [resolvePath, modifyChild_children, findIn_mapFirst_other hf hqp, hc]
        exact h

/-! ## Sibling-name uniqueness -/

/-- Every node addressable by a path has pairwise-distinct child names. -/
def uniqNames (t : Sec) : Prop :=
  ∀ p s, resolvePath t p = some s → (s.children.map Sec.name).Nodup

theorem uniq_child {t c : Sec} {q : String}
    (h : uniqNames t) (hc : findIn t.children q = some c) : uniqNames c := by
  intro p s hp
  refine h (q :: p) s ?_
  simp only [resolvePath, hc]
  exact hp

theorem uniq_leaf (n d : String) : uniqNames (Sec.mk n d []) := by
  intro p s hp
  cases p with
  | nil =>
    simp [resolvePath] at hp
    subst hp
    simp [Sec.children]
  | cons q rest =>
    simp [resolvePath, Sec.children, findIn] at hp

theorem uniq_addChild {t : Sec} {n : String}
    (h : uniqNames t) (hn : findIn t.children n = none) (d : String) :
    uniqNames (t.addChild n d) := by
  intro p s hp
  cases p with
  | nil =>
    simp [resolvePath] at hp
    subst hp
    rw [addChild_children, List.map_append]
    exact nodup_append_singleton (h [] t rfl) (findIn_eq_none_iff.mp hn)
  | cons q rest =>
    simp only [resolvePath, addChild_children] at hp
    cases hc : findIn t.children q with
    | some c =>
      rw [findIn_append_some hc] at hp
      simp only at hp
      refine h (q :: rest) s ?_
      simp only [resolvePath, hc]
      exact hp
    | none =>
      rw [findIn_append_none hc] at hp
      by_cases hq : n = q
      · subst hq
        simp only [findIn, Sec.name, if_pos rfl] at hp
        cases rest with
        | nil =>
          simp [resolvePath] at hp
          subst hp
          simp [Sec.children]
        | cons r rs =>
          simp [resolvePath, Sec.children, findIn] at hp
      · have : findIn [Sec.mk n d []] q = none := by
          simp [findIn, Sec.name, hq]
        rw [this] at hp
        simp at hp

theorem uniq_modifyChild {t : Sec} {p : String} {f : Sec → Sec}
    (h : uniqNames t) (hf : ∀ x, (f x).name = x.name)
    (hp : ∀ c, findIn t.children p = some c → uniqNames (f c)) :
    uniqNames (t.modifyChild p f) := by
  intro q s hq
  cases q with
  | nil =>
    simp [resolvePath] at hq
    subst hq
    rw [modifyChild_children, mapFirst_names hf]
    exact h [] t rfl
  | cons q rest =>
    simp only [resolvePath, modifyChild_children] at hq
    by_cases hqp : q = p
    · subst hqp
      cases hc : findIn t.children q with
      | none =>
        rw [mapFirst_none hc, hc] at hq
        simp at hq
      | some c =>
        rw [findIn_mapFirst_self hf hc] at hq
        simp only at hq
        exact hp c hc rest s hq
    · rw [findIn_mapFirst_other hf hqp] at hq
      cases hc : findIn t.children q with
      | none => rw [hc] at hq; simp at hq
      | some c =>
        rw [hc] at hq
        simp only at hq
        refine h (q :: rest) s ?_
        simp only [resolvePath, hc]
        exact hq

/-! ## Step lemmas for the creation branch -/

theorem findIn_addChild_new {t : Sec} {n : String}
    (hn : findIn t.children n = none) (d : String) :
    findIn (t.addChild n d).children n = some (Sec.mk n d []) := by
  rw [addChild_children, findIn_append_none hn]
  simp [findIn, Sec.name]

theorem step_createUnderRoot {cli : Cli} {r : Sec}
    (h1 : findIn cli.root_section.children SECTION_ROOT = some r)
    (n d : String) (hg : findIn r.children n = none) :
    findIn (createUnderRoot cli n d).root_section.children SECTION_ROOT
        = some (r.addChild n d) ∧
      findIn (r.addChild n d).children n = some (Sec.mk n d []) ∧
      preservedBy cli.root_section (createUnderRoot cli n d).root_section ∧
      (uniqNames cli.root_section → uniqNames (createUnderRoot cli n d).root_section) := by
  refine ⟨?_, findIn_addChild_new hg d, ?_, ?_⟩
  · exact findIn_mapFirst_self (fun x => rfl) h1
  · exact preservedBy_modifyChild _ _ _ (fun x => rfl)
      (fun c _ => preservedBy_addChild c n d)
  · intro hu
    refine uniq_modifyChild hu (fun x => rfl) ?_
    intro c hc
    rw [h1] at hc
    cases hc
    exact uniq_addChild (uniq_child hu h1) hg d

theorem step_createUnderRepo {cli : Cli} {r rp : Sec}
    (h1 : findIn cli.root_section.children SECTION_ROOT = some r)
    (h2 : findIn r.children SECTION_REPO = some rp)
    (n d : String) (hg : findIn rp.children n = none) :
    findIn (createUnderRepo cli n d).root_section.children SECTION_ROOT
        = some (r.modifyChild SECTION_REPO (fun x => x.addChild n d)) ∧
      findIn (r.modifyChild SECTION_REPO (fun x => x.addChild n d)).children SECTION_REPO
        = some (rp.addChild n d) ∧
      preservedBy cli.root_section (createUnderRepo cli n d).root_section ∧
      (uniqNames cli.root_section → uniqNames (createUnderRepo cli n d).root_section) := by
  refine ⟨?_, ?_, ?_, ?_⟩
  · exact findIn_mapFirst_self (fun x => rfl) h1
  · rw [modifyChild_children]
    exact findIn_mapFirst_self (fun x => rfl) h2
  · refine preservedBy_modifyChild _ _ _ (fun x => rfl) ?_
    intro c _
    exact preservedBy_modifyChild _ _ _ (fun x => rfl)
      (fun c' _ => preservedBy_addChild c' n d)
  · intro hu
    refine uniq_modifyChild hu (fun x => rfl) ?_
    intro c hc
    rw [h1] at hc
    cases hc
    refine uniq_modifyChild (uniq_child hu h1) (fun x => rfl) ?_
    intro c' hc'
    rw [h2] at hc'
    cases hc'
    exact uniq_addChild (uniq_child (uniq_child hu h1) h2) hg d

theorem step_createUnderRepoChild {cli : Cli} {r rp x : Sec} {c : String}
    (h1 : findIn cli.root_section.children SECTION_ROOT = some r)
    (h2 : findIn r.children SECTION_REPO = some rp)
    (h3 : findIn rp.children c = some x)
    (n d : String) (hg : findIn x.children n = none) :
    findIn (createUnderRepoChild cli c n d).root_section.children SECTION_ROOT
        = some (r.modifyChild SECTION_REPO
            (fun y => y.modifyChild c (fun z => z.addChild n d))) ∧
      findIn (r.modifyChild SECTION_REPO
            (fun y => y.modifyChild c (fun z => z.addChild n d))).children SECTION_REPO
        = some (rp.modifyChild c (fun z => z.addChild n d)) ∧
      findIn (rp.modifyChild c (fun z => z.addChild n d)).children c
        = some (x.addChild n d) ∧
      preservedBy cli.root_section (createUnderRepoChild cli c n d).root_section ∧
      (uniqNames cli.root_section →
        uniqNames (createUnderRepoChild cli c n d).root_section) := by
  refine ⟨?_, ?_, ?_, ?_, ?_⟩
  · exact findIn_mapFirst_self (fun y => rfl) h1
  · rw [modifyChild_children]
    exact findIn_mapFirst_self (fun y => rfl) h2
  · rw [modifyChild_children]
    exact findIn_mapFirst_self (fun z => rfl) h3
  · refine preservedBy_modifyChild _ _ _ (fun y => rfl) ?_
    intro a _
    refine preservedBy_modifyChild _ _ _ (fun y => rfl) ?_
    intro b _
    exact preservedBy_modifyChild _ _ _ (fun z => rfl)
      (fun z _ => preservedBy_addChild z n d)
  · intro hu
    refine uniq_modifyChild hu (fun y => rfl) ?_
    intro a ha
    rw [h1] at ha
    cases ha
    refine uniq_modifyChild (uniq_child hu h1) (fun y => rfl) ?_
    intro b hb
    rw [h2] at hb
    cases hb
    refine uniq_modifyChild (uniq_child (uniq_child hu h1) h2) (fun z => rfl) ?_
    intro z hz
    rw [h3] at hz
    cases hz
    exact uniq_addChild (uniq_child (uniq_child (uniq_child hu h1) h2) h3) hg d

/-! ## Evaluating the accessors from find-facts -/

theorem find_path_two {cli : Cli} {r rp : Sec} {a b : String}
    (h1 : findIn cli.root_section.children a = some r)
    (h2 : findIn r.children b = some rp) :
    (find_section_path cli [a, b]).1 = Except.ok (some rp) := by
  unfold find_section_path
  show (findSectionLoop (some cli.root_section) [a, b] cli).1 = _
  have e1 : cli.root_section.find_subsection a = some r := h1
  have e2 : r.find_subsection b = some rp := h2
  simp only [findSectionLoop, e1, e2]

theorem find_path_three {cli : Cli} {r rp x : Sec} {a b c : String}
    (h1 : findIn cli.root_section.children a = some r)
    (h2 : findIn r.children b = some rp)
    (h3 : findIn rp.children c = some x) :
    (find_section_path cli [a, b, c]).1 = Except.ok (some x) := by
  unfold find_section_path
  have e1 : cli.root_section.find_subsection a = some r := h1
  have e2 : r.find_subsection b = some rp := h2
  have e3 : rp.find_subsection c = some x := h3
  simp only [findSectionLoop, e1, e2, e3]

/-! ## The two branches of `ensure_repo_structure` -/

/-- If the `repo` child is already present under the ensured root,
`ensure_repo_structure` returns it and performs no creation at all. -/
theorem ensure_repo_structure_found {cli : Cli} {repo : Sec}
    (h : ((ensure_root cli).1).find_subsection SECTION_REPO = some repo) :
    ensure_repo_structure cli = Except.ok (repo, (ensure_root cli).2) := by
  simp only [ensure_repo_structure, h]

/-- Master lemma for the creation branch: when the ensured root has no
`repo` child, `ensure_repo_structure` builds exactly `repoFullSection`,
returns it, reaches it at path `rpm → repo` in the final state, preserves
every pre-existing section, preserves sibling-name uniqueness, and its two
intermediate accessor calls resolve to the just-created `sync` and `group`
sections. -/
theorem ensure_repo_structure_create {cli : Cli}
    (hB : findIn ((ensure_root cli).1).children SECTION_REPO = none) :
    ensure_repo_structure cli
        = Except.ok (repoFullSection, cliAfterGroupExport (ensure_root cli).2) ∧
      (∃ rootF,
        findIn (cliAfterGroupExport (ensure_root cli).2).root_section.children
            SECTION_ROOT = some rootF ∧
          findIn rootF.children SECTION_REPO = some repoFullSection) ∧
      preservedBy ((ensure_root cli).2).root_section
        (cliAfterGroupExport (ensure_root cli).2).root_section ∧
      (uniqNames ((ensure_root cli).2).root_section →
        uniqNames (cliAfterGroupExport (ensure_root cli).2).root_section) ∧
      (repo_sync_section (cliAfterRepoChildren (ensure_root cli).2)).1
        = Except.ok (some (Sec.mk SECTION_SYNC DESC_SYNC [])) ∧
      (repo_group_section (cliAfterSchedules (ensure_root cli).2)).1
        = Except.ok (some (Sec.mk SECTION_GROUP DESC_GROUP [])) := by
  have h1 := ensure_root_finds cli
  obtain ⟨a1, a2, aP, aU⟩ := step_createUnderRoot h1 SECTION_REPO DESC_REPO hB
  obtain ⟨b1, b2, bP, bU⟩ := step_createUnderRepo a1 a2 SECTION_COPY DESC_COPY rfl
  obtain ⟨c1, c2, cP, cU⟩ := step_createUnderRepo b1 b2 SECTION_REMOVE DESC_REMOVE rfl
  obtain ⟨d1, d2, dP, dU⟩ := step_createUnderRepo c1 c2 SECTION_CONTENTS DESC_CONTENTS rfl
  obtain ⟨e1, e2, eP, eU⟩ := step_createUnderRepo d1 d2 SECTION_UPLOADS DESC_UPLOADS rfl
  obtain ⟨f1, f2, fP, fU⟩ := step_createUnderRepo e1 e2 SECTION_SYNC DESC_SYNC rfl
  obtain ⟨g1, g2, gP, gU⟩ := step_createUnderRepo f1 f2 SECTION_PUBLISH DESC_PUBLISH rfl
  obtain ⟨i1, i2, iP, iU⟩ := step_createUnderRepo g1 g2 SECTION_EXPORT DESC_EXPORT rfl
  obtain ⟨j1, j2, jP, jU⟩ := step_createUnderRepo i1 i2 SECTION_GROUP DESC_GROUP rfl
  have hsyncfind : findIn
      (((((((((Sec.mk SECTION_REPO DESC_REPO []).addChild SECTION_COPY DESC_COPY).addChild
        SECTION_REMOVE DESC_REMOVE).addChild SECTION_CONTENTS DESC_CONTENTS).addChild
        SECTION_UPLOADS DESC_UPLOADS).addChild SECTION_SYNC DESC_SYNC).addChild
        SECTION_PUBLISH DESC_PUBLISH).addChild SECTION_EXPORT DESC_EXPORT).addChild
        SECTION_GROUP DESC_GROUP).children SECTION_SYNC
      = some (Sec.mk SECTION_SYNC DESC_SYNC []) := rfl
  obtain ⟨k1, k2, k3, kP, kU⟩ := step_createUnderRepoChild j1 j2 hsyncfind
    SECTION_SYNC_SCHEDULES DESC_SYNC_SCHEDULES rfl
  have hgroupfind : findIn
      ((((((((((Sec.mk SECTION_REPO DESC_REPO []).addChild SECTION_COPY DESC_COPY).addChild
        SECTION_REMOVE DESC_REMOVE).addChild SECTION_CONTENTS DESC_CONTENTS).addChild
        SECTION_UPLOADS DESC_UPLOADS).addChild SECTION_SYNC DESC_SYNC).addChild
        SECTION_PUBLISH DESC_PUBLISH).addChild SECTION_EXPORT DESC_EXPORT).addChild
        SECTION_GROUP DESC_GROUP).modifyChild SECTION_SYNC
          (fun z => z.addChild SECTION_SYNC_SCHEDULES DESC_SYNC_SCHEDULES)).children
        SECTION_GROUP
      = some (Sec.mk SECTION_GROUP DESC_GROUP []) := rfl
  obtain ⟨l1, l2, l3, lP, lU⟩ := step_createUnderRepoChild k1 k2 hgroupfind
    SECTION_EXPORT DESC_GROUP_EXPORT rfl
  have hsync : (repo_sync_section (cliAfterRepoChildren (ensure_root cli).2)).1
      = Except.ok (some (Sec.mk SECTION_SYNC DESC_SYNC [])) :=
    find_path_three j1 j2 hsyncfind
  have hgroup : (repo_group_section (cliAfterSchedules (ensure_root cli).2)).1
      = Except.ok (some (Sec.mk SECTION_GROUP DESC_GROUP [])) :=
    find_path_three k1 k2 hgroupfind
  have hrepo : (repo_section (cliAfterGroupExport (ensure_root cli).2)).1
      = Except.ok (some repoFullSection) :=
    find_path_two l1 l2
  have hB' : ((ensure_root cli).1).find_subsection SECTION_REPO = none := hB
  refine ⟨?_, ⟨_, l1, l2⟩, ?_, ?_, hsync, hgroup⟩
  · simp only [ensure_repo_structure, hB', hsync, hgroup, hrepo]
  · exact preservedBy_trans aP (preservedBy_trans bP (preservedBy_trans cP
      (preservedBy_trans dP (preservedBy_trans eP (preservedBy_trans fP
      (preservedBy_trans gP (preservedBy_trans iP (preservedBy_trans jP
      (preservedBy_trans kP lP)))))))))
  · exact fun hu => lU (kU (jU (iU (gU (fU (eU (dU (cU (bU (aU hu))))))))))

/-! ## Claim theorems -/

/-- C1 (counterexample): on a fresh CLI (where the very first path segment
`rpm` is missing), `repo_section` raises `AttributeError` instead of
returning the absence marker. -/
theorem C1_counterexample :
    (repo_section freshCli).1 = Except.error PyError.attributeError ∧
      (repo_section freshCli).1 ≠ Except.ok none := by
  refine ⟨rfl, ?_⟩
  intro h
  exact Except.noConfusion h

/-- C1 (amended): as soon as a path segment fails to resolve,
`_find_section` yields the absence marker only when that segment was the
final one; when segments remain, the next loop iteration calls
`find_subsection` on the absence marker and raises `AttributeError`. -/
theorem C1_find_section_miss (cli : Cli) (cur : Sec) (p : String)
    (rest : List String) (h : cur.find_subsection p = none) :
    (findSectionLoop (some cur) (p :: rest) cli).1
      = if rest.isEmpty then Except.ok none
        else Except.error PyError.attributeError := by
  cases rest with
  | nil => simp [findSectionLoop, h]
  | cons q qs => simp [findSectionLoop, h]

theorem C1_witness :
    (Sec.mk "" "" []).find_subsection "rpm" = none ∧
      (findSectionLoop (some (Sec.mk "" "" [])) ["rpm", "repo"] freshCli).1
        = if (["repo"] : List String).isEmpty then Except.ok none
          else Except.error PyError.attributeError :=
  ⟨rfl, C1_find_section_miss freshCli (Sec.mk "" "" []) "rpm" ["repo"] rfl⟩

/-- C2: when `rpm.repo` already exists, `ensure_repo_structure` returns
that existing section and the CLI state is exactly unchanged — no missing
subsection is repaired. -/
theorem C2_existing_repo_no_repair {cli : Cli} {rootSec repoSec : Sec}
    (h1 : cli.find_section SECTION_ROOT = some rootSec)
    (h2 : rootSec.find_subsection SECTION_REPO = some repoSec) :
    ensure_repo_structure cli = Except.ok (repoSec, cli) := by
  have hr := ensure_root_found h1
  have h2' : ((ensure_root cli).1).find_subsection SECTION_REPO = some repoSec := by
    rw [hr]
    exact h2
  have hres := ensure_repo_structure_found h2'
  rw [hr] at hres
  exact hres

def cliC2 : Cli :=
  ⟨Sec.mk "" "" [Sec.mk SECTION_ROOT DESC_ROOT [Sec.mk SECTION_REPO DESC_REPO []]]⟩

theorem C2_witness :
    cliC2.find_section SECTION_ROOT
        = some (Sec.mk SECTION_ROOT DESC_ROOT [Sec.mk SECTION_REPO DESC_REPO []]) ∧
      (Sec.mk SECTION_ROOT DESC_ROOT
          [Sec.mk SECTION_REPO DESC_REPO []]).find_subsection SECTION_REPO
        = some (Sec.mk SECTION_REPO DESC_REPO []) ∧
      (Sec.mk SECTION_REPO DESC_REPO []).find_subsection SECTION_PUBLISH = none ∧
      ensure_repo_structure cliC2
        = Except.ok (Sec.mk SECTION_REPO DESC_REPO [], cliC2) :=
  ⟨rfl, rfl, rfl, C2_existing_repo_no_repair rfl rfl⟩

/-- C3: `ensure_repo_structure` is idempotent — the first call succeeds
with some section and state, and calling it again on that state returns
the same section and exactly the same state (no duplicates, no error). -/
theorem C3_ensure_repo_structure_idempotent (cli : Cli) :
    ∃ r s, ensure_repo_structure cli = Except.ok (r, s) ∧
      ensure_repo_structure s = Except.ok (r, s) := by
  cases hc : ((ensure_root cli).1).find_subsection SECTION_REPO with
  | some repo =>
    refine ⟨repo, (ensure_root cli).2, ensure_repo_structure_found hc, ?_⟩
    have hroot : ((ensure_root cli).2).find_section SECTION_ROOT
        = some (ensure_root cli).1 := ensure_root_finds cli
    have hr2 : ensure_root ((ensure_root cli).2)
        = ((ensure_root cli).1, (ensure_root cli).2) := ensure_root_found hroot
    have hc2 : ((ensure_root ((ensure_root cli).2)).1).find_subsection SECTION_REPO
        = some repo := by
      rw [hr2]
      exact hc
    have hres := ensure_repo_structure_found hc2
    rw [hr2] at hres
    exact hres
  | none =>
    obtain ⟨hmain, ⟨rootF, hf1, hf2⟩, -, -, -, -⟩ := ensure_repo_structure_create hc
    refine ⟨repoFullSection, cliAfterGroupExport (ensure_root cli).2, hmain, ?_⟩
    have hroot : (cliAfterGroupExport (ensure_root cli).2).find_section SECTION_ROOT
        = some rootF := hf1
    have hr2 : ensure_root (cliAfterGroupExport (ensure_root cli).2)
        = (rootF, cliAfterGroupExport (ensure_root cli).2) := ensure_root_found hroot
    have hc2 : ((ensure_root (cliAfterGroupExport (ensure_root cli).2)).1).find_subsection
        SECTION_REPO = some repoFullSection := by
      rw [hr2]
      exact hf2
    have hres := ensure_repo_structure_found hc2
    rw [hr2] at hres
    exact hres

/-- C4: on any fresh CLI (empty root section), `ensure_repo_structure`
succeeds and every `repo_*_section` accessor then returns a present
section with the name and description of the fixed schema entry for its
path (e.g. `schedules` under `rpm → repo → sync`, and the group `export`
under `rpm → repo → group`). -/
theorem C4_fresh_build_accessors (n d : String) :
    ∃ s, ensure_repo_structure ⟨Sec.mk n d []⟩ = Except.ok (repoFullSection, s) ∧
      (repo_section s).1 = Except.ok (some repoFullSection) ∧
      (repo_copy_section s).1 = Except.ok (some (Sec.mk SECTION_COPY DESC_COPY [])) ∧
      (repo_remove_section s).1 = Except.ok (some (Sec.mk SECTION_REMOVE DESC_REMOVE [])) ∧
      (repo_contents_section s).1
        = Except.ok (some (Sec.mk SECTION_CONTENTS DESC_CONTENTS [])) ∧
      (repo_uploads_section s).1
        = Except.ok (some (Sec.mk SECTION_UPLOADS DESC_UPLOADS [])) ∧
      (repo_sync_section s).1 = Except.ok (some (Sec.mk SECTION_SYNC DESC_SYNC
        [Sec.mk SECTION_SYNC_SCHEDULES DESC_SYNC_SCHEDULES []])) ∧
      (repo_sync_schedules_section s).1
        = Except.ok (some (Sec.mk SECTION_SYNC_SCHEDULES DESC_SYNC_SCHEDULES [])) ∧
      (repo_publish_section s).1
        = Except.ok (some (Sec.mk SECTION_PUBLISH DESC_PUBLISH [])) ∧
      (repo_export_section s).1 = Except.ok (some (Sec.mk SECTION_EXPORT DESC_EXPORT [])) ∧
      (repo_group_section s).1 = Except.ok (some (Sec.mk SECTION_GROUP DESC_GROUP
        [Sec.mk SECTION_EXPORT DESC_GROUP_EXPORT []])) ∧
      (repo_group_export_section s).1
        = Except.ok (some (Sec.mk SECTION_EXPORT DESC_GROUP_EXPORT [])) :=
  ⟨⟨Sec.mk n d [Sec.mk SECTION_ROOT DESC_ROOT [repoFullSection]]⟩,
   rfl, rfl, rfl, rfl, rfl, rfl, rfl, rfl, rfl, rfl, rfl, rfl⟩

/-- C5: when the ensured root has no `repo` child, `ensure_repo_structure`
creates `repo` and builds below it exactly the fixed schema — the eight
direct subsections in order copy, remove, content, uploads, sync, publish,
export, group with their fixed descriptions, plus `schedules` under `sync`
and `export` under `group`, and nothing else (the resulting `repo` node is
exactly `repoFullSection`). -/
theorem C5_creation_builds_fixed_schema {cli : Cli}
    (hB : ((ensure_root cli).1).find_subsection SECTION_REPO = none) :
    ∃ s rootF, ensure_repo_structure cli = Except.ok (repoFullSection, s) ∧
      findIn s.root_section.children SECTION_ROOT = some rootF ∧
      rootF.find_subsection SECTION_REPO = some repoFullSection := by
  obtain ⟨hmain, ⟨rootF, hf1, hf2⟩, -, -, -, -⟩ := ensure_repo_structure_create hB
  exact ⟨_, rootF, hmain, hf1, hf2⟩

theorem C5_witness :
    ((ensure_root freshCli).1).find_subsection SECTION_REPO = none ∧
      ∃ s rootF, ensure_repo_structure freshCli = Except.ok (repoFullSection, s) ∧
        findIn s.root_section.children SECTION_ROOT = some rootF ∧
        rootF.find_subsection SECTION_REPO = some repoFullSection :=
  ⟨rfl, C5_creation_builds_fixed_schema rfl⟩

/-- C6: `ensure_root` returns a section named `rpm`; the resulting state
resolves `rpm` to exactly the returned section; either the section was
found (and returned as is, state untouched) or it was created with the
fixed root description by appending it to the root's children; calling
`ensure_root` again returns the same section and the same state. -/
theorem C6_ensure_root_spec (cli : Cli) :
    ((ensure_root cli).1).name = SECTION_ROOT ∧
      ((ensure_root cli).2).find_section SECTION_ROOT = some (ensure_root cli).1 ∧
      (cli.find_section SECTION_ROOT = some (ensure_root cli).1 ∧
          (ensure_root cli).2 = cli ∨
        ((ensure_root cli).1).description = DESC_ROOT ∧
          cli.find_section SECTION_ROOT = none ∧
          ((ensure_root cli).2).root_section.children
            = cli.root_section.children ++ [(ensure_root cli).1]) ∧
      ensure_root ((ensure_root cli).2) = ensure_root cli := by
  refine ⟨ensure_root_name cli, ensure_root_finds cli, ?_, ensure_root_idem cli⟩
  cases h : cli.find_section SECTION_ROOT with
  | some s =>
    rw [ensure_root_found h]
    exact Or.inl ⟨rfl, rfl⟩
  | none =>
    rw [ensure_root_created h]
    exact Or.inr ⟨rfl, rfl, rfl⟩

/-- C7: every accessor (and the underlying `_find_section` traversal at any
path) leaves the CLI state completely unchanged — pure lookup, no
creation, deletion or mutation. -/
theorem C7_accessors_read_only (cli : Cli) :
    (∀ path, (find_section_path cli path).2 = cli) ∧
      (repo_section cli).2 = cli ∧
      (repo_copy_section cli).2 = cli ∧
      (repo_remove_section cli).2 = cli ∧
      (repo_uploads_section cli).2 = cli ∧
      (repo_contents_section cli).2 = cli ∧
      (repo_sync_section cli).2 = cli ∧
      (repo_sync_schedules_section cli).2 = cli ∧
      (repo_publish_section cli).2 = cli ∧
      (repo_export_section cli).2 = cli ∧
      (repo_group_section cli).2 = cli ∧
      (repo_group_export_section cli).2 = cli :=
  ⟨fun path => find_section_path_state cli path,
   find_section_path_state cli _, find_section_path_state cli _,
   find_section_path_state cli _, find_section_path_state cli _,
   find_section_path_state cli _, find_section_path_state cli _,
   find_section_path_state cli _, find_section_path_state cli _,
   find_section_path_state cli _, find_section_path_state cli _,
   find_section_path_state cli _⟩

/-- C8: no operation of the module removes a section: every section
addressable before `ensure_root` or `ensure_repo_structure` is still
addressable afterwards with the same name and description, and the
accessors do not change the state at all. -/
theorem C8_no_section_removed (cli : Cli) :
    preservedBy cli.root_section ((ensure_root cli).2).root_section ∧
      (∃ r s, ensure_repo_structure cli = Except.ok (r, s) ∧
        preservedBy cli.root_section s.root_section) ∧
      (∀ path, (find_section_path cli path).2 = cli) := by
  have hroot : preservedBy cli.root_section ((ensure_root cli).2).root_section := by
    cases h : cli.find_section SECTION_ROOT with
    | some s =>
      rw [ensure_root_found h]
      exact preservedBy_refl _
    | none =>
      rw [ensure_root_created h]
      exact preservedBy_addChild _ _ _
  refine ⟨hroot, ?_, fun path => find_section_path_state cli path⟩
  cases hc : ((ensure_root cli).1).find_subsection SECTION_REPO with
  | some repo =>
    exact ⟨repo, (ensure_root cli).2, ensure_repo_structure_found hc, hroot⟩
  | none =>
    obtain ⟨hmain, -, hpres, -, -, -⟩ := ensure_repo_structure_create hc
    exact ⟨repoFullSection, _, hmain, preservedBy_trans hroot hpres⟩

def cliC8 : Cli := ⟨Sec.mk "" "" [Sec.mk "a" "b" []]⟩

theorem C8_witness :
    ∃ t, resolvePath ((ensure_root cliC8).2).root_section ["a"] = some t ∧
      t.name = "a" ∧ t.description = "b" := by
  obtain ⟨h1, -, -⟩ := C8_no_section_removed cliC8
  obtain ⟨t, ht, hn, hd⟩ := h1 ["a"] (Sec.mk "a" "b" []) rfl
  exact ⟨t, ht, hn, hd⟩

/-- C9: starting from a CLI whose tree has uniquely named siblings
everywhere, `ensure_root` and `ensure_repo_structure` preserve that
uniqueness — every creation is guarded by an existence check, so no
duplicate sibling name is ever introduced. -/
theorem C9_uniqueness_preserved {cli : Cli} (hu : uniqNames cli.root_section) :
    uniqNames ((ensure_root cli).2).root_section ∧
      ∃ r s, ensure_repo_structure cli = Except.ok (r, s) ∧
        uniqNames s.root_section := by
  have hroot : uniqNames ((ensure_root cli).2).root_section := by
    cases h : cli.find_section SECTION_ROOT with
    | some s =>
      rw [ensure_root_found h]
      exact hu
    | none =>
      rw [ensure_root_created h]
      exact uniq_addChild hu h DESC_ROOT
  refine ⟨hroot, ?_⟩
  cases hc : ((ensure_root cli).1).find_subsection SECTION_REPO with
  | some repo =>
    exact ⟨repo, (ensure_root cli).2, ensure_repo_structure_found hc, hroot⟩
  | none =>
    obtain ⟨hmain, -, -, huniq, -, -⟩ := ensure_repo_structure_create hc
    exact ⟨repoFullSection, _, hmain, huniq hroot⟩

theorem C9_witness :
    ∃ r s, ensure_repo_structure freshCli = Except.ok (r, s) ∧
      uniqNames s.root_section :=
  (C9_uniqueness_preserved (uniq_leaf "" "")).2

/-- C10: inside the creation branch (entered when `repo` was absent), the
intermediate lookups `repo_sync_section` and `repo_group_section` resolve
to the just-created `sync` and `group` sections — never the absence
marker — so the subsequent `create_subsection` calls never operate on an
absent node. -/
theorem C10_intermediate_lookups_present {cli : Cli}
    (hB : ((ensure_root cli).1).find_subsection SECTION_REPO = none) :
    (repo_sync_section (cliAfterRepoChildren (ensure_root cli).2)).1
        = Except.ok (some (Sec.mk SECTION_SYNC DESC_SYNC [])) ∧
      (repo_group_section (cliAfterSchedules (ensure_root cli).2)).1
        = Except.ok (some (Sec.mk SECTION_GROUP DESC_GROUP [])) := by
  obtain ⟨-, -, -, -, hsync, hgroup⟩ := ensure_repo_structure_create hB
  exact ⟨hsync, hgroup⟩

theorem C10_witness :
    (repo_sync_section (cliAfterRepoChildren (ensure_root freshCli).2)).1
        = Except.ok (some (Sec.mk SECTION_SYNC DESC_SYNC [])) ∧
      (repo_group_section (cliAfterSchedules (ensure_root freshCli).2)).1
        = Except.ok (some (Sec.mk SECTION_GROUP DESC_GROUP [])) :=
  C10_intermediate_lookups_present rfl
